import Mathlib

/-!
# Verification development for the news-scrapper pipeline (`scrape_new.py`)

This file gives a shallow embedding, in Lean 4, of the discovery /
extraction / date-resolution pipeline implemented in `scrape_new.py`, and
proves (or refutes) the frozen specification claims about it.

Modelling conventions:
* Python strings are Lean `String`s; all character-level operations
  (`strip`, `replace`, `lower`, substring `in`, `split`, `rstrip`) are
  re-implemented on the underlying `List Char` so that everything is
  executable and provable.
* Python's `urllib.parse` operations (`urlsplit`, `urlunsplit`, `urljoin`,
  the `.path` / `.netloc` accessors of `urlparse`) are modelled faithfully
  for http/https URLs following the CPython reference implementation.
* Network effects (HTML fetching, BeautifulSoup parsing, newspaper3k and
  feedparser extraction) are modelled as *inputs*: a seed page is a list of
  discovered anchor hrefs, an extraction result is an optional record, a
  feed entry carries its parsed fields.  All pure computation that
  `scrape_new.py` performs on those inputs is embedded as code.
* `datetime.date` / tz-aware `datetime` values are explicit structures;
  `today_ist` (the target date) is a parameter threaded through the
  definitions, exactly as the global is read by the source functions.
-/

namespace NewsScraper

/-! ## Python string primitives -/

/-- Characters considered whitespace by Python's `str.strip()`. -/
def isPySpace (c : Char) : Bool :=
  c = ' ' || c = '\t' || c = '\n' || c = '\r' || c = Char.ofNat 11 || c = Char.ofNat 12

/-- Model of Python `str.strip()` (no argument): drop leading and trailing
whitespace. -/
def pyStrip (s : String) : String :=
  ⟨((s.data.dropWhile isPySpace).reverse.dropWhile isPySpace).reverse⟩

/-- Model of Python `str.rstrip("/")`: drop every trailing slash. -/
def pyRstripSlash (s : String) : String :=
  ⟨(s.data.reverse.dropWhile (fun c => c = '/')).reverse⟩

/-- Model of Python `s.split("?")[0]`: the prefix before the first `?`. -/
def takeUntilQ (s : String) : String :=
  ⟨s.data.takeWhile (fun c => c ≠ '?')⟩

/-- Model of Python `str.lower()` (ASCII case folding, which is all the
source ever feeds it). -/
def pyLower (s : String) : String :=
  ⟨s.data.map Char.toLower⟩

/-- Model of Python `str.capitalize()`: first character upper-cased, the
rest lower-cased. -/
def pyCapitalize (s : String) : String :=
  match s.data with
  | [] => ""
  | c :: cs => ⟨c.toUpper :: cs.map Char.toLower⟩

/-- Substring test on character lists: does `pat` occur contiguously in the
list?  (Model of Python's `pat in s`.) -/
def isSubstr (pat : List Char) : List Char → Bool
  | [] => pat.isEmpty
  | c :: cs => pat.isPrefixOf (c :: cs) || isSubstr pat cs

/-- Model of Python's substring containment `pat in s`. -/
def inStr (pat s : String) : Bool :=
  isSubstr pat.data s.data

/-- Model of `pre.startswith(s)`-style prefix tests used by the source. -/
def pyStartsWith (s pre : String) : Bool :=
  pre.data.isPrefixOf s.data

/-- Model of Python `str.endswith`. -/
def pyEndsWith (s suf : String) : Bool :=
  suf.data.isSuffixOf s.data

/-- Fueled worker for Python `str.replace(pat, repl)`: non-overlapping,
left-to-right replacement.  The fuel is the length of the subject string,
which bounds the recursion (each step consumes at least one character). -/
def replaceAux (pat repl : List Char) : Nat → List Char → List Char
  | _, [] => []
  | 0, l => l
  | fuel + 1, c :: cs =>
    if pat ≠ [] ∧ pat.isPrefixOf (c :: cs) = true then
      repl ++ replaceAux pat repl fuel (cs.drop (pat.length - 1))
    else
      c :: replaceAux pat repl fuel cs

/-- Model of Python `s.replace(pat, repl)` (for non-empty `pat`, which is
the only way the source uses it). -/
def pyReplace (s pat repl : String) : String :=
  ⟨replaceAux pat.data repl.data s.data.length s.data⟩

/-- `", ".join(l)`, the author-joining used when building output rows. -/
def joinCommaSpace (l : List String) : String :=
  String.intercalate ", " l

/-! ## Dates and datetimes -/

/-- Model of `datetime.date` (values produced by the source always satisfy
the constructor's range checks, enforced by `validDate` below where the
source relies on them). -/
structure PyDate where
  year : Nat
  month : Nat
  day : Nat
deriving DecidableEq

/-- Leap-year rule used by `datetime`. -/
def isLeap (y : Nat) : Bool :=
  y % 4 = 0 && (y % 100 ≠ 0 || y % 400 = 0)

/-- Days in a month, as used by the `datetime.date` constructor's
validation. -/
def daysInMonth (y m : Nat) : Nat :=
  if m = 2 then (if isLeap y then 29 else 28)
  else if m = 4 ∨ m = 6 ∨ m = 9 ∨ m = 11 then 30
  else 31

/-- The range checks performed by the `datetime.date` constructor; the
source's `except ValueError` corresponds to this returning `false`. -/
def validDate (y m d : Nat) : Bool :=
  1 ≤ y && y ≤ 9999 && 1 ≤ m && m ≤ 12 && 1 ≤ d && d ≤ daysInMonth y m

/-- Decimal digit character for `n % 10`. -/
def digitChar (n : Nat) : Char :=
  Char.ofNat (48 + n % 10)

/-- Two-digit zero-padded decimal rendering (`%02d` for values `< 100`,
which covers every month/day/hour/minute/second the source prints). -/
def pad2 (n : Nat) : String :=
  ⟨[digitChar (n / 10), digitChar n]⟩

/-- Four-digit zero-padded decimal rendering (`%04d` for values `≤ 9999`,
which covers every year `datetime.date` can hold). -/
def pad4 (n : Nat) : String :=
  ⟨[digitChar (n / 1000), digitChar (n / 100), digitChar (n / 10), digitChar n]⟩

/-- Model of `datetime.date.isoformat()`: `YYYY-MM-DD`. -/
def dateIso (d : PyDate) : String :=
  pad4 d.year ++ "-" ++ pad2 d.month ++ "-" ++ pad2 d.day

/-- Model of a tz-aware `datetime.datetime` as the source holds it after
normalisation: a calendar date, a time of day, and the fixed-offset
timezone it was converted into (`Asia/Kolkata`, i.e. +05:30, in every code
path). -/
structure PyDateTime where
  date : PyDate
  hour : Nat
  minute : Nat
  second : Nat
  offHour : Nat
  offMin : Nat
deriving DecidableEq

/-- Model of tz-aware `datetime.datetime.isoformat()` with zero
microseconds and a positive UTC offset (the shape of every instant the
source formats: everything is converted to IST, +05:30, first):
`YYYY-MM-DDTHH:MM:SS+HH:MM`. -/
def dtIso (dt : PyDateTime) : String :=
  dateIso dt.date ++ "T" ++ pad2 dt.hour ++ ":" ++ pad2 dt.minute ++ ":" ++
    pad2 dt.second ++ "+" ++ pad2 dt.offHour ++ ":" ++ pad2 dt.offMin

/-- Recogniser for ISO calendar-date-only strings `YYYY-MM-DD` (the format
the spec asserts for the `publish_date` output field). -/
def isIsoDateOnly (s : String) : Bool :=
  s.data.length == 10 &&
  s.data.getD 4 ' ' == '-' && s.data.getD 7 ' ' == '-' &&
  ([0, 1, 2, 3, 5, 6, 8, 9].all fun i => (s.data.getD i ' ').isDigit)

/-! ## `urllib.parse` model

Faithful to the CPython implementation of `urlsplit` / `urlunsplit` /
`urljoin` for the http/https/relative URLs the scraper handles.  Note in
particular that `urlsplit` lower-cases the *scheme* only — the netloc
(host) is kept verbatim. -/

/-- The result quintuple of `urllib.parse.urlsplit`. -/
structure SplitUrl where
  scheme : String
  netloc : String
  path : String
  query : String
  fragment : String
deriving DecidableEq

/-- Split a character list at the first occurrence of `c`:
`(prefix, some suffix)` when found, `(whole, none)` otherwise.
(Model of `str.split(c, 1)` / `str.find`.) -/
def breakOn (c : Char) : List Char → List Char × Option (List Char)
  | [] => ([], none)
  | x :: xs =>
    if x = c then ([], some xs)
    else
      let r := breakOn c xs
      (x :: r.1, r.2)

/-- Characters allowed in a URL scheme (`scheme_chars` in CPython). -/
def isSchemeChar (c : Char) : Bool :=
  c.isAlphanum || c = '+' || c = '-' || c = '.'

/-- Scheme-detection step of `urlsplit`: if the text before the first `:`
is a non-empty run of scheme characters starting with a letter, it is the
(lower-cased) scheme and is removed; otherwise the default scheme applies
and the text is left whole. -/
def schemeSplit (defaultScheme : String) (l : List Char) : String × List Char :=
  match breakOn ':' l with
  | (pre, some post) =>
    if pre ≠ [] ∧ (pre.headD ' ').isAlpha = true ∧ pre.all isSchemeChar = true then
      (⟨pre.map Char.toLower⟩, post)
    else (defaultScheme, l)
  | (_, none) => (defaultScheme, l)

/-- A character that ends the netloc: `/`, `?` or `#`. -/
def notNetlocDelim (c : Char) : Bool :=
  !(c = '/' || c = '?' || c = '#')

/-- Netloc-detection step of `urlsplit`: after the scheme, a leading `//`
introduces the netloc, which runs up to the next `/`, `?` or `#`. -/
def netlocSplit : List Char → List Char × List Char
  | '/' :: '/' :: r => (r.takeWhile notNetlocDelim, r.dropWhile notNetlocDelim)
  | l => ([], l)

/-- Fragment step of `urlsplit` (allow_fragments=True): split at the first
`#`. -/
def fragSplit (l : List Char) : List Char × List Char :=
  match breakOn '#' l with
  | (pre, some post) => (pre, post)
  | (pre, none) => (pre, [])

/-- Query step of `urlsplit`: split at the first `?`. -/
def querySplit (l : List Char) : List Char × List Char :=
  match breakOn '?' l with
  | (pre, some post) => (pre, post)
  | (pre, none) => (pre, [])

/-- Model of `urllib.parse.urlsplit(url, defaultScheme)`. -/
def urlsplitWith (defaultScheme : String) (url : String) : SplitUrl :=
  let s1 := schemeSplit defaultScheme url.data
  let s2 := netlocSplit s1.2
  let s3 := fragSplit s2.2
  let s4 := querySplit s3.1
  ⟨s1.1, ⟨s2.1⟩, ⟨s4.1⟩, ⟨s4.2⟩, ⟨s3.2⟩⟩

/-- Model of `urllib.parse.urlunsplit`. -/
def urlunsplit (u : SplitUrl) : String :=
  let url := u.path
  let url :=
    if u.netloc ≠ "" ∨ pyStartsWith url "//" = true then
      "//" ++ u.netloc ++ (if url ≠ "" ∧ pyStartsWith url "/" = false then "/" ++ url else url)
    else url
  let url := if u.scheme ≠ "" then u.scheme ++ ":" ++ url else url
  let url := if u.query ≠ "" then url ++ "?" ++ u.query else url
  if u.fragment ≠ "" then url ++ "#" ++ u.fragment else url

/-- CPython's `uses_relative` scheme list. -/
def usesRelative : List String :=
  ["", "ftp", "http", "gopher", "nntp", "imap", "wais", "file", "https",
   "shttp", "mms", "prospero", "rtsp", "rtspu", "sftp", "svn", "svn+ssh",
   "ws", "wss"]

/-- CPython's `uses_netloc` scheme list. -/
def usesNetloc : List String :=
  ["", "ftp", "http", "gopher", "nntp", "telnet", "imap", "wais", "file",
   "mms", "https", "shttp", "snews", "prospero", "rtsp", "rtspu", "rsync",
   "svn", "svn+ssh", "sftp", "nfs", "git", "git+ssh", "ws", "wss",
   "itms-services"]

/-- Model of Python `path.split('/')` on character lists. -/
def splitSlash : List Char → List (List Char)
  | [] => [[]]
  | c :: cs =>
    let r := splitSlash cs
    if c = '/' then [] :: r
    else
      match r with
      | [] => [[c]]
      | h :: t => (c :: h) :: t

/-- Model of `'/'.join(segs)`. -/
def joinSlash : List (List Char) → List Char
  | [] => []
  | [s] => s
  | s :: rest => s ++ '/' :: joinSlash rest

/-- Dot-segment resolution loop of `urljoin`: `..` pops (silently on
empty), `.` is skipped, everything else is appended. -/
def resolveSegs (segs : List (List Char)) : List (List Char) :=
  segs.foldl
    (fun acc seg =>
      if seg = ['.', '.'] then acc.dropLast
      else if seg = ['.'] then acc
      else acc ++ [seg])
    []

/-- `segments[1:-1] = filter(None, segments[1:-1])`: drop empty segments
strictly between the first and the last. -/
def filterMiddle : List (List Char) → List (List Char)
  | [] => []
  | [x] => [x]
  | x :: xs => x :: ((xs.dropLast.filter (fun s => s ≠ [])) ++ [xs.getLastD []])

/-- Model of `urllib.parse.urljoin` (CPython reference implementation,
restricted to `allow_fragments=True`, which is how the source calls it). -/
def urljoin (base url : String) : String :=
  if base = "" then url
  else if url = "" then base
  else
    let b := urlsplitWith "" base
    let u := urlsplitWith b.scheme url
    if u.scheme ≠ b.scheme ∨ usesRelative.contains u.scheme = false then url
    else
      let nd : String × Bool :=
        if usesNetloc.contains u.scheme then
          if u.netloc ≠ "" then (u.netloc, true) else (b.netloc, false)
        else (u.netloc, false)
      if nd.2 then urlunsplit ⟨u.scheme, nd.1, u.path, u.query, u.fragment⟩
      else if u.path = "" ∧ u.query = "" then
        urlunsplit ⟨u.scheme, nd.1, b.path, b.query, u.fragment⟩
      else if u.path = "" then
        urlunsplit ⟨u.scheme, nd.1, b.path, u.query, u.fragment⟩
      else
        let bparts0 := splitSlash b.path.data
        let bparts := if bparts0.getLastD [] ≠ [] then bparts0.dropLast else bparts0
        let segments :=
          if pyStartsWith u.path "/" then splitSlash u.path.data
          else filterMiddle (bparts ++ splitSlash u.path.data)
        let resolved := resolveSegs segments
        let resolved :=
          if segments.getLastD [] = ['.'] ∨ segments.getLastD [] = ['.', '.'] then
            resolved ++ [[]]
          else resolved
        let joined := joinSlash resolved
        let joined := if joined = [] then ['/'] else joined
        urlunsplit ⟨u.scheme, nd.1, ⟨joined⟩, u.query, u.fragment⟩

/-! ## Source helpers: category, The Wire URL validation and URL date -/

/-- The fixed category vocabulary of `extract_category_from_url`, in source
order. -/
def categories : List String :=
  ["politics", "economy", "business", "world", "india", "sports",
   "entertainment", "science", "tech", "technology", "education",
   "lifestyle", "health", "law", "rights", "society", "culture",
   "gender", "media", "opinion"]

/-- Model of `extract_category_from_url(url)`: lower-case the URL path and
return the capitalised form of the first vocabulary word `cat` (in list
order) such that `/cat/` occurs in the path; empty string if none does. -/
def extract_category_from_url (url : String) : String :=
  let path := pyLower (urlsplitWith "" url).path
  match categories.find? (fun cat => inStr ("/" ++ cat ++ "/") path) with
  | some cat => pyCapitalize cat
  | none => ""

/-- The `skip_patterns` denylist of `is_valid_thewire_article`. -/
def skip_patterns : List String :=
  ["/author/", "/tag/", "/category/", "/page/",
   "/about", "/contact", "/privacy", "/terms",
   ".jpg", ".png", ".gif", ".pdf", "#",
   "/wp-content/", "/wp-admin/", "/feed",
   "facebook.com", "twitter.com", "instagram.com",
   "/search/", "/subscribe/", "/newsletter/"]

/-- The `article_indicators` allowlist of `is_valid_thewire_article`. -/
def article_indicators : List String :=
  ["/politics/", "/economy/", "/society/", "/world/",
   "/law/", "/rights/", "/security/", "/diplomacy/",
   "/article/", "/news/", "/opinion/", "/external-affairs/",
   "/science/", "/culture/", "/gender/", "/media/"]

/-- Model of `is_valid_thewire_article(url)`: the URL must contain
`thewire.in` (case-sensitively), match no denylist pattern and at least one
allowlist pattern (both checked against the lower-cased URL). -/
def is_valid_thewire_article (url : String) : Bool :=
  inStr "thewire.in" url &&
  skip_patterns.all (fun p => !(inStr p (pyLower url))) &&
  article_indicators.any (fun p => inStr p (pyLower url))

/-- Does the regex `/(\d{4})/(\d{2})/(\d{2})/` match at the head of this
character list?  Returns the three numeric groups. -/
def dateSegAt : List Char → Option (Nat × Nat × Nat)
  | '/' :: a :: b :: c :: d :: '/' :: e :: f :: '/' :: g :: h :: '/' :: _ =>
    if [a, b, c, d, e, f, g, h].all Char.isDigit then
      some ([a, b, c, d].foldl (fun n ch => n * 10 + (ch.toNat - 48)) 0,
            [e, f].foldl (fun n ch => n * 10 + (ch.toNat - 48)) 0,
            [g, h].foldl (fun n ch => n * 10 + (ch.toNat - 48)) 0)
    else none
  | _ => none

/-- Leftmost match of the date regex, as `re.search` finds it. -/
def searchDateSeg : List Char → Option (Nat × Nat × Nat)
  | [] => none
  | c :: cs =>
    match dateSegAt (c :: cs) with
    | some r => some r
    | none => searchDateSeg cs

/-- Model of `extract_date_from_thewire_url(url)`: the leftmost
`/YYYY/MM/DD/` segment, as a `date` when the groups form a valid calendar
date (`datetime.date` raises `ValueError` otherwise, which the source turns
into `None`). -/
def extract_date_from_thewire_url (url : String) : Option PyDate :=
  match searchDateSeg url.data with
  | some (y, m, d) => if validDate y m d then some ⟨y, m, d⟩ else none
  | none => none

/-! ## Link discovery (`collect_candidate_links`, `scrape_site` gathering)

A seed page's parsed anchors are an input: the list of raw `href`
attribute values the BeautifulSoup queries produce (all anchors in generic
mode; the selector matches in The Wire mode). -/

/-- Python-set insertion modelled on an insertion-ordered duplicate-free
list: `links.add(x)`. -/
def setAdd (links : List String) (x : String) : List String :=
  if x ∈ links then links else links ++ [x]

/-- `candidate_links.update(new)`: fold every new element in. -/
def updateSet (acc new : List String) : List String :=
  new.foldl setAdd acc

/-- The per-candidate normalisation applied before insertion:
`urljoin(base, href).split("?")[0].rstrip("/")`. -/
def normalizeCand (base href : String) : String :=
  pyRstripSlash (takeUntilQ (urljoin base href))

/-- One anchor of the generic branch of `collect_candidate_links`:
strip the href, skip `#`/`mailto:` targets, resolve against the seed,
require an http/https scheme and a netloc suffix-matching the seed's
domain, then add the normalised URL. -/
def genericStep (base_domain base_url : String) (links : List String) (href0 : String) : List String :=
  let href := pyStrip href0
  if pyStartsWith href "#" || pyStartsWith href "mailto:" then links
  else
    let full := urljoin base_url href
    let parsed := urlsplitWith "" full
    if !(parsed.scheme = "http" || parsed.scheme = "https") then links
    else if !(pyEndsWith parsed.netloc base_domain) then links
    else setAdd links (pyRstripSlash (takeUntilQ full))

/-- One anchor of the The Wire branch of `collect_candidate_links`:
strip the href, require it non-empty and not `#`/`mailto:`, resolve, and
add the normalised URL when `is_valid_thewire_article` accepts it. -/
def thewireStep (base_url : String) (links : List String) (href0 : String) : List String :=
  let href := pyStrip href0
  if href ≠ "" ∧ pyStartsWith href "#" = false ∧ pyStartsWith href "mailto:" = false then
    let full := urljoin base_url href
    if is_valid_thewire_article full then
      setAdd links (pyRstripSlash (takeUntilQ full))
    else links
  else links

/-- Model of `collect_candidate_links(base_url, html)`: `hrefs` is the list
of anchor hrefs the soup queries yield for this page (in document order for
the generic branch; in selector-then-document order for The Wire).  An
unfetchable page (`html` falsy) contributes the empty set one level up. -/
def collect_candidate_links (base_url : String) (hrefs : List String) : List String :=
  let base_domain := (urlsplitWith "" base_url).netloc
  if inStr "thewire.in" base_domain then
    hrefs.foldl (thewireStep base_url) []
  else
    hrefs.foldl (genericStep base_domain base_url) []

/-- `MAX_LINKS_PER_SITE` from the config section. -/
def MAX_LINKS_PER_SITE : Nat := 250

/-- A seed page as `scrape_site` sees it: its URL and, when the fetch
succeeded, the anchor hrefs parsed from the response body. -/
structure Seed where
  url : String
  html : Option (List String)

/-- The seed loop of `scrape_site`: accumulate candidate links per seed,
skipping failed fetches and stopping early once the cap is reached. -/
def gatherCandidates : List Seed → List String → List String
  | [], acc => acc
  | s :: rest, acc =>
    match s.html with
    | none => gatherCandidates rest acc
    | some hrefs =>
      let acc2 := updateSet acc (collect_candidate_links s.url hrefs)
      if MAX_LINKS_PER_SITE ≤ acc2.length then acc2
      else gatherCandidates rest acc2

/-- The candidate collection `scrape_site` iterates for extraction:
`list(candidate_links)[:MAX_LINKS_PER_SITE]`. -/
def candidatesForExtraction (seeds : List Seed) : List String :=
  (gatherCandidates seeds []).take MAX_LINKS_PER_SITE

/-! ## Extraction results, the keep/drop decision and output rows -/

/-- The dict both extraction strategies return (`extract_thewire_article`
and `extract_article_with_newspaper`): in either strategy the publish
instant, when present, has already been converted to the fixed IST
timezone. -/
structure ExtractedArticle where
  url : String
  title : String
  authors : List String
  summary : String
  text : String
  publish_date : Option PyDateTime
  category : String

/-- Model of the keep/drop decision of `scrape_site` (lines 384–393): an
extracted publish instant decides by date equality; otherwise a
`thewire.in` link consults the URL date segment (defaulting to keep when
the segment is missing or invalid); otherwise the target date's ISO string
must occur in the URL path. -/
def keepDecide (link : String) (pub : Option PyDateTime) (today : PyDate) : Bool :=
  match pub with
  | some dt => decide (dt.date = today)
  | none =>
    if inStr "thewire.in" link then
      match extract_date_from_thewire_url link with
      | some d => decide (d = today)
      | none => true
    else
      inStr (dateIso today) (urlsplitWith "" link).path

/-- One output row (the CSV dict of `scrape_site` / `scrape_ndtv_rss`). -/
structure Row where
  site : String
  url : String
  title : String
  authors : String
  summary : String
  text : String
  publish_date : String
  category : String
deriving DecidableEq

/-- Model of the row built for a kept crawl-path article (lines 396–405):
title stripped; authors comma-space-joined; summary and text stripped and
with newlines replaced by spaces; publish_date the instant's full
`isoformat()` or empty; category as the extractor resolved it (both
extractors populate the `category` key, so the `art.get` default never
fires). -/
def mkRow (site_name : String) (art : ExtractedArticle) : Row :=
  { site := site_name
    url := art.url
    title := pyStrip art.title
    authors := joinCommaSpace art.authors
    summary := pyReplace (pyStrip art.summary) "\n" " "
    text := pyReplace (pyStrip art.text) "\n" " "
    publish_date := match art.publish_date with
      | some dt => dtIso dt
      | none => ""
    category := art.category }

/-- Model of the extraction-and-filter loop of `scrape_site`: `extractOf`
is the (network-dependent) result of `extract_article_with_newspaper` per
link, `none` when it fails and the candidate is skipped. -/
def scrape_site_rows (today : PyDate) (site_name : String) (seeds : List Seed)
    (extractOf : String → Option ExtractedArticle) : List Row :=
  (candidatesForExtraction seeds).filterMap fun link =>
    match extractOf link with
    | none => none
    | some art =>
      if keepDecide link art.publish_date today then some (mkRow site_name art)
      else none

/-! ## Feed path (`scrape_ndtv_rss`) -/

/-- The supplementary newspaper extraction attempted per feed entry;
`none` models the `except Exception` branch. -/
structure FeedExtract where
  text : String
  authors : List String

/-- A feedparser entry as `scrape_ndtv_rss` consumes it: `published` is
the raw feed string (absent when the entry lacks the attribute),
`publishedDate` the result of `parser.parse(...).astimezone(IST).date()`
(absent when parsing raises), and `extract` the supplementary extraction
outcome for `entry.link`.  `summary` already carries the
`entry.get("summary", "")` default. -/
structure FeedEntry where
  link : String
  title : String
  summary : String
  published : Option String
  publishedDate : Option PyDate
  extract : Option FeedExtract

/-- Model of one iteration of the `scrape_ndtv_rss` entry loop: skip
entries without a (parsable) publish date, keep only same-day entries, and
fill text/authors from the supplementary extraction when it succeeded,
leaving the initial defaults (`""`) when it raised. -/
def processFeedEntry (today : PyDate) (e : FeedEntry) : Option Row :=
  match e.published with
  | none => none
  | some raw =>
    match e.publishedDate with
    | none => none
    | some d =>
      if d = today then
        some { site := "NDTV"
               url := e.link
               title := e.title
               authors := match e.extract with
                 | some ex => joinCommaSpace ex.authors
                 | none => ""
               summary := e.summary
               text := match e.extract with
                 | some ex => ex.text
                 | none => ""
               publish_date := raw
               category := extract_category_from_url e.link }
      else none

/-- Model of `scrape_ndtv_rss`: the kept rows over all feed entries. -/
def scrape_ndtv_rss (today : PyDate) (entries : List FeedEntry) : List Row :=
  entries.filterMap (processFeedEntry today)

/-! ## Pipeline (`main`) -/

/-- Model of the row-gathering in `main`: the feed rows first, then each
configured site's rows in order, where a site whose scrape raised is caught
by the `try/except` and contributes nothing. -/
def mainRows (feedRows : List Row) (siteResults : List (Except String (List Row))) : List Row :=
  feedRows ++ (siteResults.map fun r =>
    match r with
    | .ok rows => rows
    | .error _ => []).flatten

/-! ## The Wire title extraction (`extract_thewire_article`) -/

/-- One `application/ld+json` script as the title loop sees it:
`isNewsArticle` is `isinstance(data, dict) and data.get('@type') ==
'NewsArticle'`; a failed `json.loads` is modelled by `none` in the
script list (the `except ... continue`). -/
structure JsonLd where
  isNewsArticle : Bool
  headline : Option String

/-- The suffix-strip applied to titles: `.replace(' - The Wire',
'').strip()`. -/
def cleanWireTitle (s : String) : String :=
  pyStrip (pyReplace s " - The Wire" "")

/-- The loop over JSON-LD scripts `break`s at the first parsed dict whose
`@type` is `NewsArticle`; this returns that object. -/
def firstNewsArticle : List (Option JsonLd) → Option JsonLd
  | [] => none
  | none :: rest => firstNewsArticle rest
  | some d :: rest => if d.isNewsArticle then some d else firstNewsArticle rest

/-- The title-relevant parse of a Wire page: the JSON-LD scripts in
document order, the `og:title` meta content (with the `.get('content',
'')` default applied) when the tag exists, and the first `h1`'s
`get_text(strip=True)` when one exists. -/
structure WirePage where
  scripts : List (Option JsonLd)
  ogTitle : Option String
  h1Text : Option String

/-- Model of the title chain of `extract_thewire_article` (lines 208–246):
the first NewsArticle JSON-LD object's headline (suffix-stripped), and —
whenever that leaves the title falsy (empty) — the `og:title` content
(suffix-stripped), then the first heading's text. -/
def wireTitle (p : WirePage) : String :=
  let t0 := match firstNewsArticle p.scripts with
    | some d =>
      match d.headline with
      | some h => cleanWireTitle h
      | none => ""
    | none => ""
  if t0 ≠ "" then t0
  else
    match p.ogTitle with
    | some c => cleanWireTitle c
    | none =>
      match p.h1Text with
      | some t => t
      | none => ""

/-! ## Shared helper lemmas -/

theorem strData_append (a b : String) : (a ++ b).data = a.data ++ b.data := by
  cases a; cases b; rfl

theorem find?_append_first {α : Type} (p : α → Bool) (l₁ l₂ : List α) (a : α)
    (h₁ : ∀ x ∈ l₁, p x = false) (h₂ : p a = true) :
    (l₁ ++ a :: l₂).find? p = some a := by
  induction l₁ with
  | nil => simp [List.find?_cons, h₂]
  | cons x xs ih =>
    have hx : p x = false := h₁ x (List.mem_cons_self x xs)
    simp only [List.cons_append, List.find?_cons, hx]
    exact ih fun y hy => h₁ y (List.mem_cons_of_mem x hy)

/-! ## C1 -/

/-- C1: when the extracted article carries a publish instant, the
keep/drop decision of `scrape_site` is exactly the equality of that
instant's (IST-normalised) date component with the target date — the same
for every candidate URL, so no URL-pattern rule (URL date segment, site
hint, ISO-substring match) is consulted. -/
theorem publishInstantDecidesAlone (link link2 : String) (dt : PyDateTime) (today : PyDate) :
    keepDecide link (some dt) today = decide (dt.date = today) ∧
    keepDecide link (some dt) today = keepDecide link2 (some dt) today :=
  ⟨rfl, rfl⟩

/-! ## C2 -/

/-- C2 counterexample: a non–Wire URL whose path carries the
syntactically valid `/2024/01/05/` segment equal to the target date is
nevertheless dropped — the URL-date rule is only ever consulted for
`thewire.in` links, and the general ISO-substring rule does not match the
slash-separated form.  This refutes the claim as stated "for any candidate
URL, regardless of site". -/
theorem urlDateRuleNotGenericCex :
    extract_date_from_thewire_url "https://example.com/2024/01/05/piece" =
      some ⟨2024, 1, 5⟩ ∧
    keepDecide "https://example.com/2024/01/05/piece" none ⟨2024, 1, 5⟩ = false := by
  decide

/-- C2 (amended): restricted to candidates whose URL contains
`thewire.in`, with no extracted publish instant: if the URL carries a
syntactically valid `/YYYY/MM/DD/` date the candidate is kept iff that
date equals the target date, and if no valid date segment is found the
decision falls through to the site-hint default (keep). -/
theorem thewireUrlDateRule (link : String) (today : PyDate)
    (hw : inStr "thewire.in" link = true) :
    (∀ d, extract_date_from_thewire_url link = some d →
      keepDecide link none today = decide (d = today)) ∧
    (extract_date_from_thewire_url link = none →
      keepDecide link none today = true) := by
  constructor
  · intro d hd
    simp [keepDecide, hw, hd]
  · intro hd
    simp [keepDecide, hw, hd]

/-- Witness for C2 (amended) at a concrete Wire URL carrying the target
date. -/
theorem thewireUrlDateRuleWitness :
    keepDecide "https://m.thewire.in/politics/2024/01/05/piece" none ⟨2024, 1, 5⟩ = true := by
  have h := (thewireUrlDateRule "https://m.thewire.in/politics/2024/01/05/piece"
    ⟨2024, 1, 5⟩ (by decide)).1 ⟨2024, 1, 5⟩ (by decide)
  simpa using h

/-! ## C5 -/

/-- C5: a site whose scrape raises is treated by `main`'s `try/except`
exactly as a site contributing zero records: the pipeline output is
unchanged if the failing site is replaced by an empty result, so the feed
rows and every other site's rows are delivered unchanged and the run is
not aborted. -/
theorem siteFailureIsolated (feedRows : List Row)
    (pre post : List (Except String (List Row))) (msg : String) :
    mainRows feedRows (pre ++ Except.error msg :: post) =
      mainRows feedRows (pre ++ Except.ok [] :: post) := by
  simp [mainRows]

/-! ## C6 -/

/-- C6: a feed entry whose feed-declared publish date equals the target
date is never dropped by a failure of the supplementary extraction: the
row is still produced with the feed's own title and summary and with the
`text`/`authors` defaults (empty strings). -/
theorem feedExtractionFailureDegrades (today : PyDate) (e : FeedEntry) (raw : String)
    (hp : e.published = some raw) (hd : e.publishedDate = some today)
    (hx : e.extract = none) :
    processFeedEntry today e =
      some { site := "NDTV", url := e.link, title := e.title, authors := "",
             summary := e.summary, text := "", publish_date := raw,
             category := extract_category_from_url e.link } := by
  simp [processFeedEntry, hp, hd, hx]

/-- Witness for C6 at a concrete feed entry. -/
theorem feedExtractionFailureDegradesWitness :
    processFeedEntry ⟨2024, 1, 5⟩
      ⟨"https://www.ndtv.com/world/x", "Ti", "Su", some "raw", some ⟨2024, 1, 5⟩, none⟩ =
      some ⟨"NDTV", "https://www.ndtv.com/world/x", "Ti", "", "Su", "", "raw", "World"⟩ := by
  rw [feedExtractionFailureDegrades ⟨2024, 1, 5⟩
    ⟨"https://www.ndtv.com/world/x", "Ti", "Su", some "raw", some ⟨2024, 1, 5⟩, none⟩
    "raw" rfl rfl rfl]
  decide

/-! ## C8 -/

/-- C8 counterexample: a Wire page whose JSON-LD NewsArticle headline is
exactly the site suffix (so the suffix-strip leaves it empty) falls back
to the conflicting `og:title` value — the embedded headline does not win.
This refutes the claim as stated for every page with both sources
present. -/
theorem wireTitleOgFallbackCex :
    wireTitle ⟨[some ⟨true, some " - The Wire"⟩], some "Other Title", none⟩ =
      "Other Title" ∧
    cleanWireTitle " - The Wire" = "" ∧
    ("Other Title" : String) ≠ "" := by
  decide

/-- C8 (amended): whenever the first parsed JSON-LD NewsArticle object has
a headline whose suffix-stripped, whitespace-trimmed form is non-empty,
that stripped headline is the extracted title, regardless of any
`og:title` value. -/
theorem wireJsonLdHeadlineWins (p : WirePage) (d : JsonLd) (h : String)
    (hfa : firstNewsArticle p.scripts = some d)
    (hh : d.headline = some h)
    (hne : cleanWireTitle h ≠ "") :
    wireTitle p = cleanWireTitle h := by
  simp [wireTitle, hfa, hh, hne]

/-- Witness for C8 (amended) at a concrete page where the headline and the
`og:title` conflict. -/
theorem wireJsonLdHeadlineWinsWitness :
    wireTitle ⟨[some ⟨true, some "Real Head - The Wire"⟩], some "Other", none⟩ =
      "Real Head" := by
  rw [wireJsonLdHeadlineWins ⟨[some ⟨true, some "Real Head - The Wire"⟩], some "Other", none⟩
    ⟨true, some "Real Head - The Wire"⟩ "Real Head - The Wire" rfl rfl (by decide)]
  decide

/-! ## C10 -/

/-- C10: when the URL path matches several words of the fixed category
vocabulary, `extract_category_from_url` returns the capitalised form of
the matching word that comes first in the vocabulary order — not the word
appearing earliest in the path. -/
theorem categoryVocabOrderWins (url : String) (l₁ l₂ : List String) (c : String)
    (hsplit : categories = l₁ ++ c :: l₂)
    (hearly : ∀ c2 ∈ l₁,
      inStr ("/" ++ c2 ++ "/") (pyLower (urlsplitWith "" url).path) = false)
    (hc : inStr ("/" ++ c ++ "/") (pyLower (urlsplitWith "" url).path) = true) :
    extract_category_from_url url = pyCapitalize c := by
  have h := find?_append_first
    (fun cat => inStr ("/" ++ cat ++ "/") (pyLower (urlsplitWith "" url).path))
    l₁ l₂ c hearly hc
  simp [extract_category_from_url, hsplit, h]

/-- Witness for C10: a path containing `/sports/` before `/politics/`
resolves to `"Politics"` because `politics` precedes `sports` in the
vocabulary. -/
theorem categoryVocabOrderWinsWitness :
    extract_category_from_url "https://x.example/sports/politics/article" = "Politics" := by
  rw [categoryVocabOrderWins "https://x.example/sports/politics/article"
    [] categories.tail "politics" rfl (by simp) (by decide)]
  decide

/-! ## C3 -/

theorem dtIso_data_length (dt : PyDateTime) : (dtIso dt).data.length = 25 := by
  simp [dtIso, dateIso, pad2, pad4, strData_append]

theorem dtIso_not_dateOnly (dt : PyDateTime) : isIsoDateOnly (dtIso dt) = false := by
  have h : ((dtIso dt).data.length == 10) = false := by
    rw [dtIso_data_length]
    rfl
  simp only [isIsoDateOnly, h, Bool.false_and]

/-- C3 counterexample: a kept crawl-path article with a publish instant
gets the instant's full `isoformat()` — a datetime string with time and
UTC offset — in its `publish_date` field, which is neither an ISO
calendar-date-only string nor empty. -/
theorem publishDateFormatCex :
    (mkRow "The Hindu"
      ⟨"u", "T", [], "s", "t", some ⟨⟨2024, 1, 5⟩, 5, 0, 0, 5, 30⟩, "World"⟩).publish_date =
      "2024-01-05T05:00:00+05:30" ∧
    isIsoDateOnly "2024-01-05T05:00:00+05:30" = false ∧
    ("2024-01-05T05:00:00+05:30" : String) ≠ "" := by
  decide

/-- C3 (amended): the `publish_date` field is, on the crawl path, the full
ISO-8601 *datetime* string of the IST-normalised instant when one is
present (never a bare calendar date) and the empty string when none is;
on the feed path it is the feed's raw published string verbatim. -/
theorem publishDateFieldShape (site : String) (art : ExtractedArticle)
    (today : PyDate) (e : FeedEntry) (raw : String) :
    (art.publish_date = none → (mkRow site art).publish_date = "") ∧
    (∀ dt, art.publish_date = some dt →
      (mkRow site art).publish_date = dtIso dt ∧
      isIsoDateOnly (mkRow site art).publish_date = false) ∧
    (e.published = some raw → ∀ r, processFeedEntry today e = some r →
      r.publish_date = raw) := by
  refine ⟨fun h => by simp [mkRow, h], fun dt h => ⟨by simp [mkRow, h], ?_⟩, ?_⟩
  · simp [mkRow, h, dtIso_not_dateOnly]
  · intro hp r hr
    rcases hd : e.publishedDate with _ | d
    · simp [processFeedEntry, hp, hd] at hr
    · simp only [processFeedEntry, hp, hd] at hr
      by_cases hdt : d = today
      · rw [if_pos hdt] at hr
        injection hr with h
        subst h
        rfl
      · rw [if_neg hdt] at hr
        cases hr

/-- Witness for C3 (amended) at concrete inputs for both paths. -/
theorem publishDateFieldShapeWitness :
    isIsoDateOnly ((mkRow "S"
      ⟨"u", "T", [], "s", "t", some ⟨⟨2024, 1, 6⟩, 1, 2, 3, 5, 30⟩, ""⟩).publish_date) = false :=
  ((publishDateFieldShape "S"
      ⟨"u", "T", [], "s", "t", some ⟨⟨2024, 1, 6⟩, 1, 2, 3, 5, 30⟩, ""⟩
      ⟨2024, 1, 6⟩
      ⟨"l", "t", "s", some "raw", some ⟨2024, 1, 6⟩, none⟩
      "raw").2.1 ⟨⟨2024, 1, 6⟩, 1, 2, 3, 5, 30⟩ rfl).2

/-! ## C4 -/

theorem newline_not_mem_replaceAux :
    ∀ (fuel : Nat) (l : List Char), l.length ≤ fuel →
      '\n' ∉ replaceAux ['\n'] [' '] fuel l := by
  intro fuel
  induction fuel with
  | zero =>
    intro l hl
    cases l with
    | nil => simp [replaceAux]
    | cons c cs => simp at hl
  | succ n ih =>
    intro l hl
    cases l with
    | nil => simp [replaceAux]
    | cons c cs =>
      simp only [replaceAux]
      split
      · next hcond =>
        have hc : ('\n' == c) = true := by
          have := hcond.2
          simpa [List.isPrefixOf] using this
        simp only [List.drop_zero, List.length_cons] at *
        intro hmem
        rcases List.mem_append.1 hmem with h1 | h1
        · simp at h1
        · exact ih (cs.drop 0) (by simpa using Nat.le_of_succ_le_succ hl) (by simpa using h1)
      · next hcond =>
        have hc : ('\n' == c) = false := by
          by_contra hcc
          exact hcond ⟨by simp, by simpa [List.isPrefixOf] using (Bool.of_not_eq_false hcc)⟩
        intro hmem
        rcases List.mem_cons.1 hmem with h1 | h1
        · rw [h1] at hc
          simp at hc
        · exact ih cs (Nat.le_of_succ_le_succ (by simpa using hl)) h1

theorem isSubstr_singleton_eq_false {c : Char} :
    ∀ {l : List Char}, c ∉ l → isSubstr [c] l = false := by
  intro l
  induction l with
  | nil => intro _; rfl
  | cons d ds ih =>
    intro h
    have hcd : c ≠ d := fun hh => h (hh ▸ List.mem_cons_self d ds)
    have hds : c ∉ ds := fun hh => h (List.mem_cons_of_mem d hh)
    simp [isSubstr, List.isPrefixOf, ih hds, hcd]

theorem pyReplace_newline_clean (s : String) :
    inStr "\n" (pyReplace s "\n" " ") = false := by
  have h : '\n' ∉ replaceAux ['\n'] [' '] s.data.length s.data :=
    newline_not_mem_replaceAux s.data.length s.data (Nat.le_refl _)
  exact isSubstr_singleton_eq_false h

/-- C4 counterexample: on the feed path no newline replacement happens —
a feed entry whose summary embeds a newline yields a record whose
`summary` field still contains that newline. -/
theorem feedNewlineCex :
    (processFeedEntry ⟨2024, 1, 5⟩
      ⟨"https://www.ndtv.com/x", "Ti", "a\nb", some "raw", some ⟨2024, 1, 5⟩, none⟩).map
        (fun r => inStr "\n" r.summary) = some true := by
  decide

/-- C4 (amended): crawl-path rows have every newline in `text` and
`summary` replaced by a space (so neither field contains a newline), but
feed-path rows carry the feed summary and the extracted text verbatim,
newlines included. -/
theorem newlineHandling (site : String) (art : ExtractedArticle)
    (today : PyDate) (e : FeedEntry) :
    inStr "\n" (mkRow site art).text = false ∧
    inStr "\n" (mkRow site art).summary = false ∧
    (∀ r, processFeedEntry today e = some r →
      r.summary = e.summary ∧
      r.text = (match e.extract with | some ex => ex.text | none => "")) := by
  refine ⟨pyReplace_newline_clean _, pyReplace_newline_clean _, ?_⟩
  intro r hr
  rcases hp : e.published with _ | raw
  · simp [processFeedEntry, hp] at hr
  · rcases hd : e.publishedDate with _ | d
    · simp [processFeedEntry, hp, hd] at hr
    · simp only [processFeedEntry, hp, hd] at hr
      by_cases hdt : d = today
      · rw [if_pos hdt] at hr
        injection hr with h
        subst h
        exact ⟨rfl, rfl⟩
      · rw [if_neg hdt] at hr
        cases hr

/-- Witness for C4 (amended): concrete crawl row and feed row. -/
theorem newlineHandlingWitness :
    inStr "\n" (mkRow "S" ⟨"u", "T", [], "a\nb", "c\nd", none, ""⟩).text = false ∧
    ((processFeedEntry ⟨2024, 1, 7⟩
        ⟨"https://www.ndtv.com/y", "T", "p\nq", some "raw", some ⟨2024, 1, 7⟩, none⟩).map
      (fun r => r.summary) = some "p\nq") := by
  constructor
  · exact (newlineHandling "S" ⟨"u", "T", [], "a\nb", "c\nd", none, ""⟩ ⟨2024, 1, 7⟩
      ⟨"https://www.ndtv.com/y", "T", "p\nq", some "raw", some ⟨2024, 1, 7⟩, none⟩).1
  · have h := (newlineHandling "S" ⟨"u", "T", [], "a\nb", "c\nd", none, ""⟩ ⟨2024, 1, 7⟩
      ⟨"https://www.ndtv.com/y", "T", "p\nq", some "raw", some ⟨2024, 1, 7⟩, none⟩).2.2
    rcases hpe : processFeedEntry ⟨2024, 1, 7⟩
      ⟨"https://www.ndtv.com/y", "T", "p\nq", some "raw", some ⟨2024, 1, 7⟩, none⟩ with _ | r
    · exact absurd hpe (by decide)
    · simpa [hpe] using (h r hpe).1

/-! ## C7 -/

theorem setAdd_nodup {l : List String} (h : l.Nodup) (x : String) :
    (setAdd l x).Nodup := by
  unfold setAdd
  split
  · exact h
  · next hx =>
    refine List.Nodup.append h (List.nodup_singleton x) ?_
    intro a ha hb
    rw [List.mem_singleton] at hb
    exact hx (hb ▸ ha)

theorem updateSet_nodup (new : List String) :
    ∀ {acc : List String}, acc.Nodup → (updateSet acc new).Nodup := by
  induction new with
  | nil => intro acc h; exact h
  | cons x xs ih =>
    intro acc h
    exact ih (setAdd_nodup h x)

theorem gatherCandidates_nodup :
    ∀ (seeds : List Seed) (acc : List String), acc.Nodup →
      (gatherCandidates seeds acc).Nodup := by
  intro seeds
  induction seeds with
  | nil => intro acc h; exact h
  | cons s rest ih =>
    intro acc h
    unfold gatherCandidates
    rcases s.html with _ | hrefs
    · exact ih acc h
    · simp only
      split
      · exact updateSet_nodup _ h
      · exact ih _ (updateSet_nodup _ h)

/-- C7: for any sequence of seed pages with any contents, the capped
candidate collection `scrape_site` iterates for extraction contains no two
equal normalized URL strings (set semantics). -/
theorem candidateCollectionNodup (seeds : List Seed) :
    (candidatesForExtraction seeds).Nodup :=
  (gatherCandidates_nodup seeds [] List.nodup_nil).sublist
    (List.take_sublist _ _)

/-! ## C9 helper lemmas -/

theorem strExt {a b : String} (h : a.data = b.data) : a = b := by
  cases a
  cases b
  cases h
  rfl

theorem breakOn_eq_none {c : Char} :
    ∀ {l : List Char}, c ∉ l → breakOn c l = (l, none) := by
  intro l
  induction l with
  | nil => intro _; rfl
  | cons x xs ih =>
    intro h
    have hx : x ≠ c := fun hh => h (hh ▸ List.mem_cons_self x xs)
    have hxs : c ∉ xs := fun hh => h (List.mem_cons_of_mem x hh)
    simp [breakOn, hx, ih hxs]

theorem breakOn_append {c : Char} :
    ∀ {l₁ : List Char} (l₂ : List Char), c ∉ l₁ →
      breakOn c (l₁ ++ c :: l₂) = (l₁, some l₂) := by
  intro l₁
  induction l₁ with
  | nil => intro l₂ _; simp [breakOn]
  | cons x xs ih =>
    intro l₂ h
    have hx : x ≠ c := fun hh => h (hh ▸ List.mem_cons_self x xs)
    have hxs : c ∉ xs := fun hh => h (List.mem_cons_of_mem x hh)
    simp [breakOn, hx, ih l₂ hxs]

theorem takeWhile_append_of_all {α : Type} {p : α → Bool} :
    ∀ {l₁ : List α} (l₂ : List α), (∀ a ∈ l₁, p a = true) →
      (l₁ ++ l₂).takeWhile p = l₁ ++ l₂.takeWhile p := by
  intro l₁
  induction l₁ with
  | nil => intro l₂ _; rfl
  | cons x xs ih =>
    intro l₂ h
    have hx : p x = true := h x (List.mem_cons_self x xs)
    simp [List.takeWhile_cons, hx, ih l₂ fun a ha => h a (List.mem_cons_of_mem x ha)]

theorem dropWhile_append_of_all {α : Type} {p : α → Bool} :
    ∀ {l₁ : List α} (l₂ : List α), (∀ a ∈ l₁, p a = true) →
      (l₁ ++ l₂).dropWhile p = l₂.dropWhile p := by
  intro l₁
  induction l₁ with
  | nil => intro l₂ _; rfl
  | cons x xs ih =>
    intro l₂ h
    have hx : p x = true := h x (List.mem_cons_self x xs)
    simp [List.dropWhile_cons, hx, ih l₂ fun a ha => h a (List.mem_cons_of_mem x ha)]

theorem schemeSplit_https (ds : String) (tail : List Char) :
    schemeSplit ds ('h' :: 't' :: 't' :: 'p' :: 's' :: ':' :: tail) = ("https", tail) := rfl

/-- Shape of `urlsplit` on an absolute https URL whose netloc avoids the
delimiters, whose path starts with `/` and avoids `?`/`#`, and whose query
avoids `#`. -/
theorem urlsplit_abs (ds host path q : String)
    (hhost : ∀ c ∈ host.data, notNetlocDelim c = true)
    (hpath : path.data.head? = some '/')
    (hpathq : '?' ∉ path.data) (hpathh : '#' ∉ path.data)
    (hqh : '#' ∉ q.data) :
    urlsplitWith ds ("https://" ++ host ++ path ++ "?" ++ q) =
      ⟨"https", host, path, q, ""⟩ := by
  have hdata : ("https://" ++ host ++ path ++ "?" ++ q).data =
      'h' :: 't' :: 't' :: 'p' :: 's' :: ':' :: '/' :: '/' ::
        (host.data ++ (path.data ++ '?' :: q.data)) := by
    simp [strData_append]
  rcases hpd : path.data with _ | ⟨c, tl⟩
  · rw [hpd] at hpath
    cases hpath
  · have hc : c = '/' := by
      rw [hpd] at hpath
      simpa using hpath
    subst hc
    have hnl : (host.data ++ (path.data ++ '?' :: q.data)).takeWhile notNetlocDelim =
        host.data := by
      rw [takeWhile_append_of_all _ hhost, hpd]
      simp [List.takeWhile_cons, notNetlocDelim]
    have hrest : (host.data ++ (path.data ++ '?' :: q.data)).dropWhile notNetlocDelim =
        path.data ++ '?' :: q.data := by
      rw [dropWhile_append_of_all _ hhost, hpd]
      simp [List.dropWhile_cons, notNetlocDelim]
    have hfrag : breakOn '#' (path.data ++ '?' :: q.data) =
        (path.data ++ '?' :: q.data, none) := by
      refine breakOn_eq_none ?_
      intro hmem
      rcases List.mem_append.1 hmem with h1 | h1
      · exact hpathh h1
      · rcases List.mem_cons.1 h1 with h2 | h2
        · cases h2
        · exact hqh h2
    have hquery : breakOn '?' (path.data ++ '?' :: q.data) = (path.data, some q.data) :=
      breakOn_append _ hpathq
    show (let s1 := schemeSplit ds ("https://" ++ host ++ path ++ "?" ++ q).data
          let s2 := netlocSplit s1.2
          let s3 := fragSplit s2.2
          let s4 := querySplit s3.1
          (⟨s1.1, ⟨s2.1⟩, ⟨s4.1⟩, ⟨s4.2⟩, ⟨s3.2⟩⟩ : SplitUrl)) = ⟨"https", host, path, q, ""⟩
    rw [hdata]
    rw [schemeSplit_https]
    show (⟨"https",
      ⟨(host.data ++ (path.data ++ '?' :: q.data)).takeWhile notNetlocDelim⟩,
      ⟨(querySplit (fragSplit
        ((host.data ++ (path.data ++ '?' :: q.data)).dropWhile notNetlocDelim)).1).1⟩,
      ⟨(querySplit (fragSplit
        ((host.data ++ (path.data ++ '?' :: q.data)).dropWhile notNetlocDelim)).1).2⟩,
      ⟨(fragSplit
        ((host.data ++ (path.data ++ '?' :: q.data)).dropWhile notNetlocDelim)).2⟩⟩ : SplitUrl) =
      ⟨"https", host, path, q, ""⟩
    rw [hnl, hrest]
    rw [show fragSplit (path.data ++ '?' :: q.data) = (path.data ++ '?' :: q.data, []) by
      simp [fragSplit, hfrag]]
    rw [show querySplit (path.data ++ '?' :: q.data) = (path.data, q.data) by
      simp [querySplit, hquery]]

theorem takeWhile_eq_self_of_all {α : Type} {p : α → Bool} {l : List α}
    (h : ∀ a ∈ l, p a = true) : l.takeWhile p = l := by
  have := @takeWhile_append_of_all _ _ l [] h
  simpa using this

theorem urlunsplit_https (host path q : String) (hhost_ne : host ≠ "")
    (hstarts : pyStartsWith path "/" = true) :
    urlunsplit ⟨"https", host, path, q, ""⟩ =
      if q ≠ "" then "https" ++ ":" ++ ("//" ++ host ++ path) ++ "?" ++ q
      else "https" ++ ":" ++ ("//" ++ host ++ path) := by
  unfold urlunsplit
  simp only
  rw [if_pos (Or.inl hhost_ne)]
  rw [if_neg (show ¬(path ≠ "" ∧ pyStartsWith path "/" = false) from
    fun hcon => by rw [hstarts] at hcon; exact absurd hcon.2 (by simp))]
  rw [if_pos (show ("https" : String) ≠ "" by decide)]
  by_cases hq : q = "" <;> simp [hq]

theorem urljoin_abs (base host path q : String)
    (hbase : base ≠ "")
    (hbs : (urlsplitWith "" base).scheme = "https")
    (hhost_ne : host ≠ "")
    (hhost : ∀ c ∈ host.data, notNetlocDelim c = true)
    (hpath : path.data.head? = some '/')
    (hpathq : '?' ∉ path.data) (hpathh : '#' ∉ path.data)
    (hqh : '#' ∉ q.data) :
    urljoin base ("https://" ++ host ++ path ++ "?" ++ q) =
      urlunsplit ⟨"https", host, path, q, ""⟩ := by
  have hUdata : ("https://" ++ host ++ path ++ "?" ++ q).data =
      'h' :: 't' :: 't' :: 'p' :: 's' :: ':' :: '/' :: '/' ::
        (host.data ++ (path.data ++ '?' :: q.data)) := by
    simp [strData_append]
  have hUne : ("https://" ++ host ++ path ++ "?" ++ q) ≠ "" := by
    intro h
    rw [h] at hUdata
    cases hUdata
  have hsplit := urlsplit_abs (urlsplitWith "" base).scheme host path q
    hhost hpath hpathq hpathh hqh
  rw [hbs] at hsplit
  unfold urljoin
  rw [if_neg hbase, if_neg hUne]
  simp only [hbs, hsplit]
  rw [if_neg (show ¬(("https" : String) ≠ "https" ∨
      usesRelative.contains "https" = false) by decide)]
  rw [if_pos (show usesNetloc.contains "https" = true by decide)]
  rw [if_pos hhost_ne]
  rfl

theorem takeUntilQ_cut (host path q : String)
    (hhost : ∀ c ∈ host.data, notNetlocDelim c = true)
    (hpathq : '?' ∉ path.data) :
    takeUntilQ ("https" ++ ":" ++ ("//" ++ host ++ path) ++ "?" ++ q) =
      "https://" ++ host ++ path := by
  apply strExt
  show (("https" ++ ":" ++ ("//" ++ host ++ path) ++ "?" ++ q).data.takeWhile
    (fun c => c ≠ '?')) = ("https://" ++ host ++ path).data
  have hdata : ("https" ++ ":" ++ ("//" ++ host ++ path) ++ "?" ++ q).data =
      (('h' :: 't' :: 't' :: 'p' :: 's' :: ':' :: '/' :: '/' ::
        (host.data ++ path.data)) ++ '?' :: q.data) := by
    simp [strData_append]
  rw [hdata]
  rw [takeWhile_append_of_all _ ?hall]
  case hall =>
    intro a ha
    simp only [List.mem_cons] at ha
    rcases ha with h | h | h | h | h | h | h | h | h
    all_goals first
      | (subst h; decide)
      | skip
    rcases List.mem_append.1 h with h1 | h1
    · have := hhost a h1
      simp only [notNetlocDelim] at this
      simp only [decide_eq_true_eq]
      intro hq2
      subst hq2
      simp at this
    · simp only [decide_eq_true_eq]
      intro hq2
      exact hpathq (hq2 ▸ h1)
  · rw [show (('?' :: q.data).takeWhile (fun c => (c ≠ '?' : Bool))) = [] from by
      simp [List.takeWhile_cons]]
    simp [strData_append]

theorem takeUntilQ_noq (host path : String)
    (hhost : ∀ c ∈ host.data, notNetlocDelim c = true)
    (hpathq : '?' ∉ path.data) :
    takeUntilQ ("https" ++ ":" ++ ("//" ++ host ++ path)) =
      "https://" ++ host ++ path := by
  apply strExt
  show (("https" ++ ":" ++ ("//" ++ host ++ path)).data.takeWhile
    (fun c => c ≠ '?')) = ("https://" ++ host ++ path).data
  have hdata : ("https" ++ ":" ++ ("//" ++ host ++ path)).data =
      ('h' :: 't' :: 't' :: 'p' :: 's' :: ':' :: '/' :: '/' ::
        (host.data ++ path.data)) := by
    simp [strData_append]
  rw [hdata]
  rw [takeWhile_eq_self_of_all ?hall]
  case hall =>
    intro a ha
    simp only [List.mem_cons] at ha
    rcases ha with h | h | h | h | h | h | h | h | h
    all_goals first
      | (subst h; decide)
      | skip
    rcases List.mem_append.1 h with h1 | h1
    · have := hhost a h1
      simp only [notNetlocDelim] at this
      simp only [decide_eq_true_eq]
      intro hq2
      subst hq2
      simp at this
    · simp only [decide_eq_true_eq]
      intro hq2
      exact hpathq (hq2 ▸ h1)
  · simp [strData_append]

/-! ## C9 -/

/-- C9 counterexample: candidate normalization does *not* lower-case the
host — two hrefs differing only in host letter case normalize to
different CandidateLink strings.  (`urljoin` lower-cases the scheme as a
side effect of resolution, but keeps the netloc verbatim.) -/
theorem hostCaseNotFoldedCex :
    normalizeCand "https://site.example/" "https://SITE.example/a" =
      "https://SITE.example/a" ∧
    normalizeCand "https://site.example/" "https://site.example/a" =
      "https://site.example/a" ∧
    ("https://SITE.example/a" : String) ≠ "https://site.example/a" := by
  decide

/-- C9 (amended): candidate normalization resolves the href against the
seed URL, strips the query string and strips trailing slashes, but
preserves the host's letter case verbatim (only the scheme is
lower-cased by resolution): for any href of the shape
`https://host path ? query` (host free of `/?#`, path starting with `/`
and free of `?#`, query free of `#`) resolved against a seed whose scheme
is https, the normalized candidate is exactly `https://` ++ host ++ path
with trailing slashes removed — the host appearing verbatim, so hrefs
differing only in host case normalize to different strings. -/
theorem candidateNormalizationShape (base host path q : String)
    (hbase : base ≠ "")
    (hbs : (urlsplitWith "" base).scheme = "https")
    (hhost_ne : host ≠ "")
    (hhost : ∀ c ∈ host.data, notNetlocDelim c = true)
    (hpath : path.data.head? = some '/')
    (hpathq : '?' ∉ path.data) (hpathh : '#' ∉ path.data)
    (hqh : '#' ∉ q.data) :
    normalizeCand base ("https://" ++ host ++ path ++ "?" ++ q) =
      pyRstripSlash ("https://" ++ host ++ path) := by
  have hstarts : pyStartsWith path "/" = true := by
    rcases hpd : path.data with _ | ⟨c, tl⟩
    · rw [hpd] at hpath
      cases hpath
    · have hc : c = '/' := by
        rw [hpd] at hpath
        simpa using hpath
      subst hc
      simp [pyStartsWith, hpd, List.isPrefixOf]
  unfold normalizeCand
  rw [urljoin_abs base host path q hbase hbs hhost_ne hhost hpath hpathq hpathh hqh]
  rw [urlunsplit_https host path q hhost_ne hstarts]
  by_cases hq : q = ""
  · rw [if_neg (by simp [hq])]
    rw [takeUntilQ_noq host path hhost hpathq]
  · rw [if_pos hq]
    rw [takeUntilQ_cut host path q hhost hpathq]

/-- Witness for C9 (amended): a mixed-case host survives normalization
verbatim while the query and the trailing slash are stripped. -/
theorem candidateNormalizationShapeWitness :
    normalizeCand "https://site.example/"
        ("https://" ++ "News.Example" ++ "/today/" ++ "?" ++ "ref=1") =
      pyRstripSlash ("https://" ++ "News.Example" ++ "/today/") :=
  candidateNormalizationShape "https://site.example/" "News.Example" "/today/" "ref=1"
    (by decide) (by decide) (by decide) (by decide) (by decide) (by decide)
    (by decide) (by decide)

end NewsScraper
